import Mathlib

/-!
# Verification of the coap-go client core

A shallow embedding of the coap-go repository's CoAP client core:

* the option value accessors and option map of `coapmsg` (`options.go`),
* the CoAP message codec (`coapmsg.ParseMessage` / `Message.MarshalBinary`,
  modelled from the specification since only its tests ship in the tree,
  and pinned against the byte vectors of `coapmsg_test.go`),
* the serial connection (`serialConnection`: `FindInteraction`,
  `ReadPacket`/`WritePacket` deadline handling, receive-loop dispatch), and
* the UART transport front-end (`TransportUart.RoundTrip` validation and
  the Observe notification-pump condition).

Bytes are modelled as `Nat` with explicit `< 256` bounds where relevant;
Go `uint32`/`uint16` arithmetic is `Nat` with explicit `% 2^32` / bounds.
Fallible Go functions return `Except`/`Option`; a Go runtime panic is an
explicit outcome constructor.
-/

namespace CoapGo

/-! ## Option values (`coapmsg/options.go`, shipped inside the repo docs) -/

/-- Go `OptionValue` from `options.go`: raw bytes plus the `isNil` flag that
distinguishes the `NilOption` sentinel from a stored value. -/
structure OptionValue where
  b : List Nat
  isNil : Bool
  deriving DecidableEq, Repr

/-- Go `var NilOption OptionValue = OptionValue{isNil: true}`. -/
def NilOption : OptionValue := ⟨[], true⟩

/-- Go `func (v OptionValue) IsSet() bool { return !v.isNil }` -/
def OptionValue.IsSet (v : OptionValue) : Bool := !v.isNil

/-- Go `func (v OptionValue) IsNotSet() bool { return !v.IsSet() }` -/
def OptionValue.IsNotSet (v : OptionValue) : Bool := !v.IsSet

/-- Reader `AsUInt8`: zero when empty, else the first stored byte. -/
def OptionValue.AsUInt8 (v : OptionValue) : Nat :=
  match v.b with
  | [] => 0
  | b :: _ => b

/-- Reader `AsUInt16`: zero when empty; otherwise the bytes are padded on the right
with zeros to two bytes and read with `binary.LittleEndian.Uint16`, i.e.
`b[0] + b[1]*256` of the padded list. `List.getD i 0` is exactly the padded
byte at index `i`. -/
def OptionValue.AsUInt16 (v : OptionValue) : Nat :=
  match v.b with
  | [] => 0
  | _ => v.b.getD 0 0 + v.b.getD 1 0 * 256

/-- Reader `AsUInt32`: zero when empty; otherwise right-padded to four bytes and
read with `binary.LittleEndian.Uint32`. -/
def OptionValue.AsUInt32 (v : OptionValue) : Nat :=
  match v.b with
  | [] => 0
  | _ => v.b.getD 0 0 + v.b.getD 1 0 * 256 + v.b.getD 2 0 * 65536 +
      v.b.getD 3 0 * 16777216

/-- Reader `AsUInt64`: zero when empty; otherwise right-padded to eight bytes and
read with `binary.LittleEndian.Uint64`. -/
def OptionValue.AsUInt64 (v : OptionValue) : Nat :=
  match v.b with
  | [] => 0
  | _ => v.b.getD 0 0 + v.b.getD 1 0 * 256 + v.b.getD 2 0 * 65536 +
      v.b.getD 3 0 * 16777216 + v.b.getD 4 0 * 4294967296 +
      v.b.getD 5 0 * 1099511627776 + v.b.getD 6 0 * 281474976710656 +
      v.b.getD 7 0 * 72057594037927936

/-- Go `CoapOptions` (`map[OptionId][]OptionValue`), modelled as an association
list from option number to the ordered list of stored values. -/
def CoapOptions := List (Nat × List OptionValue)

instance : DecidableEq CoapOptions := by
  unfold CoapOptions
  infer_instance

/-- Accessor `CoapOptions.Get`: the first value for the key, or `NilOption` when the
key is absent or maps to an empty list (`if len(v) == 0`). -/
def CoapOptions.Get (h : CoapOptions) (key : Nat) : OptionValue :=
  match h.lookup key with
  | none => NilOption
  | some [] => NilOption
  | some (v :: _) => v

/-- The `Observe` option number (RFC 7641, option 6). -/
def Observe : Nat := 6

/-! ## Unsigned option value codec

`encodeInt` / `decodeInt` live in the `coapmsg` message codec, which is not
in the tree; they are modelled from the spec ("big-endian, leading-zero
stripped, zero is the empty byte string") and pinned by `TestByteEncoding`
and `TestByteDecoding`. -/

/-- Modelled from the spec: big-endian digits of `x` in base 256 with leading
zeros stripped; the fuel argument bounds the digit count (4 suffices for a
Go `uint32`). -/
def encodeIntAux : Nat → Nat → List Nat
  | 0, _ => []
  | _ + 1, 0 => []
  | k + 1, x => encodeIntAux k (x / 256) ++ [x % 256]

/-- Modelled from the spec: `encodeInt(v uint32)` — the big-endian,
leading-zero-stripped bytes of `v` (`encodeInt(0) = nil`,
`encodeInt(1024) = [4, 0]`). -/
def encodeInt (x : Nat) : List Nat := encodeIntAux 4 (x % 4294967296)

/-- Modelled from the spec: `decodeInt` — big-endian interpretation of a
byte string, shorter values zero-extended. -/
def decodeInt (bs : List Nat) : Nat := bs.foldl (fun acc b => acc * 256 + b) 0

/-! ## The message codec (`coapmsg`)

The message structure and codec (`message.go`) are not in the tree — only
their tests are — so they are modelled from the spec (§4.1 of the spec:
header layout, option delta/length nibbles with the 13/14 extension rules,
payload marker, option length validation) and pinned against the byte
vectors of `coapmsg_test.go`. -/

/-- Go `COAPType`: the two-bit CoAP message type. -/
inductive COAPType
  | confirmable
  | nonConfirmable
  | acknowledgement
  | reset
  deriving DecidableEq, Repr

/-- Wire value of a message type. -/
def COAPType.toNat : COAPType → Nat
  | .confirmable => 0
  | .nonConfirmable => 1
  | .acknowledgement => 2
  | .reset => 3

/-- Message type from its two-bit wire value. -/
def typeFromWire : Nat → COAPType
  | 0 => .confirmable
  | 1 => .nonConfirmable
  | 2 => .acknowledgement
  | _ => .reset

/-- Go `coapmsg.Message`. The option multimap is modelled canonically as an
association list sorted strictly by option number (the marshaller serializes
options in ascending number order), each number carrying its ordered,
nonempty list of raw byte-string values. -/
structure Message where
  type : COAPType
  code : Nat
  messageID : Nat
  token : List Nat
  options : List (Nat × List (List Nat))
  payload : List Nat
  deriving DecidableEq, Repr

/-- Modelled from the spec: the registered option definitions
(min/max value length per option number, RFC 7252 §5.10 registry as listed
in the spec §6); `TestOptionsWithIllegalLengthAreIgnoredDuringParsing` pins
Uri-Port at 0–2 and Max-Age at 0–4. Unregistered numbers yield `none`. -/
def optionDefs : Nat → Option (Nat × Nat)
  | 1 => some (0, 8)      -- If-Match
  | 3 => some (1, 255)    -- Uri-Host
  | 4 => some (1, 8)      -- ETag
  | 5 => some (0, 0)      -- If-None-Match
  | 6 => some (0, 3)      -- Observe
  | 7 => some (0, 2)      -- Uri-Port
  | 8 => some (0, 255)    -- Location-Path
  | 11 => some (0, 255)   -- Uri-Path
  | 12 => some (0, 2)     -- Content-Format
  | 14 => some (0, 4)     -- Max-Age
  | 15 => some (0, 255)   -- Uri-Query
  | 17 => some (0, 2)     -- Accept
  | 20 => some (0, 255)   -- Location-Query
  | 35 => some (1, 1034)  -- Proxy-Uri
  | 39 => some (1, 255)   -- Proxy-Scheme
  | 60 => some (0, 4)     -- Size1
  | _ => none

/-- Whether `len` is a legal value length for option number `n`: within the
registered bounds, or unconstrained for unregistered numbers (unknown
options are preserved verbatim). -/
def legalLen (n len : Nat) : Bool :=
  match optionDefs n with
  | some (lo, hi) => decide (lo ≤ len) && decide (len ≤ hi)
  | none => true

/-- Predicate `OptionDef.Critical` from `options.go`: an option number is critical
when its low bit is set. -/
def critical (n : Nat) : Bool := n % 2 = 1

/-- Outcome of the decoder's option length validation. -/
inductive LenCheck
  | keep
  | drop
  | fail
  deriving DecidableEq, Repr

/-- Length validation during decode: legal lengths are kept; illegal lengths
fail the whole message for critical options and silently drop the occurrence
for non-critical ones. -/
def checkLen (n len : Nat) : LenCheck :=
  if legalLen n len then .keep
  else if critical n then .fail
  else .drop

/-- The 4-bit delta/length nibble together with its extension bytes:
values 0–12 in place, 13 ⇒ one extra byte carrying `v - 13`, 14 ⇒ two
big-endian extra bytes carrying `v - 269`. -/
def extNibble (v : Nat) : Nat × List Nat :=
  if v < 13 then (v, [])
  else if v < 269 then (13, [v - 13])
  else (14, [(v - 269) / 256, (v - 269) % 256])

/-- One serialized option occurrence: packed delta/length nibbles, delta
extension bytes, length extension bytes, then the value bytes. -/
def encodeOpt (delta : Nat) (val : List Nat) : List Nat :=
  ((extNibble delta).1 * 16 + (extNibble val.length).1) ::
    ((extNibble delta).2 ++ (extNibble val.length).2 ++ val)

/-- Serialize a flat stream of (absolute number, value) occurrences,
delta-encoding each number against the previous one. -/
def encodeStream : Nat → List (Nat × List Nat) → List Nat
  | _, [] => []
  | prev, (n, v) :: rest => encodeOpt (n - prev) v ++ encodeStream n rest

/-- Flatten the option multimap into its occurrence stream, numbers in map
order and repeated values in insertion order. -/
def optStream (opts : List (Nat × List (List Nat))) : List (Nat × List Nat) :=
  opts.flatMap (fun p => p.2.map (fun v => (p.1, v)))

/-- Modelled from the spec: `Message.MarshalBinary` — the 4-byte header
(version 1, type, token length nibble, code, big-endian message id), the
token, the delta-encoded option stream, and `0xFF` plus the payload when the
payload is nonempty. -/
def MarshalBinary (m : Message) : List Nat :=
  (64 + m.type.toNat * 16 + m.token.length) :: m.code ::
    (m.messageID / 256) :: (m.messageID % 256) ::
    (m.token ++ encodeStream 0 (optStream m.options) ++
      (match m.payload with
       | [] => []
       | _ => 255 :: m.payload))

/-- The decoder's failure cases (`Message format error` variants). -/
inductive FormatError
  | tooShort
  | badVersion
  | badTokenLength
  | truncated
  | badNibble
  | emptyPayload
  | criticalLength
  | outOfFuel
  deriving DecidableEq, Repr

/-- Decode one delta or length nibble: 0–12 in place, 13/14 consume the
extension bytes, 15 is a format error (`none`). -/
def parseExtN (nib : Nat) (bs : List Nat) : Option (Nat × List Nat) :=
  if nib < 13 then some (nib, bs)
  else if nib = 13 then
    match bs with
    | b :: rest => some (13 + b, rest)
    | [] => none
  else if nib = 14 then
    match bs with
    | b1 :: b2 :: rest => some (269 + (b1 * 256 + b2), rest)
    | _ => none
  else none

/-- The option-stream loop of `ParseMessage`: consume options until the
payload marker or the end of input, returning the occurrence stream and the
payload. A bare `0xFF` with nothing after it is a format error; an illegal
length fails the message for critical options and skips the occurrence for
non-critical ones. The fuel argument only bounds the iteration count; one
byte is consumed per step, so the input length is always enough fuel. -/
def parseOptsAux : Nat → Nat → List Nat →
    Except FormatError (List (Nat × List Nat) × List Nat)
  | _, _, [] => .ok ([], [])
  | 0, _, _ :: _ => .error .outOfFuel
  | fuel + 1, prev, b :: bs =>
    if b = 255 then
      match bs with
      | [] => .error .emptyPayload
      | _ => .ok ([], bs)
    else
      match parseExtN (b / 16) bs with
      | none => .error .badNibble
      | some (delta, bs1) =>
        match parseExtN (b % 16) bs1 with
        | none => .error .badNibble
        | some (len, bs2) =>
          if bs2.length < len then .error .truncated
          else
            match checkLen (prev + delta) len with
            | .fail => .error .criticalLength
            | .drop => parseOptsAux fuel (prev + delta) (bs2.drop len)
            | .keep =>
              match parseOptsAux fuel (prev + delta) (bs2.drop len) with
              | .ok (s, pl) => .ok ((prev + delta, bs2.take len) :: s, pl)
              | .error e => .error e

/-- Append a decoded occurrence to the option multimap
(`options[n] = append(options[n], v)`). -/
def insertOpt : List (Nat × List (List Nat)) → Nat → List Nat →
    List (Nat × List (List Nat))
  | [], n, v => [(n, [v])]
  | (k, vs) :: rest, n, v =>
    if k = n then (k, vs ++ [v]) :: rest
    else (k, vs) :: insertOpt rest n v

/-- Rebuild the option multimap from the decoded occurrence stream. -/
def buildOpts (s : List (Nat × List Nat)) : List (Nat × List (List Nat)) :=
  s.foldl (fun acc p => insertOpt acc p.1 p.2) []

/-- Modelled from the spec: `coapmsg.ParseMessage` — reject inputs shorter
than 4 bytes, version ≠ 1, token length nibble > 8, or a truncated token;
then parse the option stream and payload. -/
def ParseMessage (data : List Nat) : Except FormatError Message :=
  match data with
  | b0 :: b1 :: b2 :: b3 :: rest =>
    if b0 / 64 ≠ 1 then .error .badVersion
    else if b0 % 16 > 8 then .error .badTokenLength
    else if rest.length < b0 % 16 then .error .truncated
    else
      match parseOptsAux rest.length 0 (rest.drop (b0 % 16)) with
      | .error e => .error e
      | .ok (s, pl) =>
        .ok { type := typeFromWire ((b0 / 16) % 4)
              code := b1
              messageID := b2 * 256 + b3
              token := rest.take (b0 % 16)
              options := buildOpts s
              payload := pl }
  | _ => .error .tooShort

/-- Whether a parse attempt failed. -/
def parseFails : Except FormatError Message → Bool
  | .error _ => true
  | .ok _ => false

/-- Validity of one option occurrence for the round-trip: 16-bit number,
registered-legal and encodable value length. -/
def occWF (n : Nat) (v : List Nat) : Bool :=
  decide (n < 65536) && legalLen n v.length && decide (v.length ≤ 65804)

/-- Validity of an occurrence stream relative to the previous option
number: numbers non-decreasing, every occurrence valid. -/
def streamWF : Nat → List (Nat × List Nat) → Bool
  | _, [] => true
  | prev, (n, v) :: rest => decide (prev ≤ n) && occWF n v && streamWF n rest

/-- Validity of the canonical option multimap: keys strictly increasing
(at least `lo`), value lists nonempty, every occurrence valid, all value
bytes in range. -/
def optionsWF : Nat → List (Nat × List (List Nat)) → Bool
  | _, [] => true
  | lo, (n, vs) :: rest =>
    decide (lo ≤ n) && !vs.isEmpty && vs.all (occWF n) &&
      vs.all (fun v => v.all (· < 256)) && optionsWF (n + 1) rest

/-- A well-formed message in the sense of the spec: any type, 8-bit code,
16-bit message id, token of at most 8 bytes, options with registered-legal
lengths in canonical order, arbitrary byte payload. -/
def wellFormed (m : Message) : Bool :=
  decide (m.code < 256) && decide (m.messageID < 65536) &&
    decide (m.token.length ≤ 8) && m.token.all (· < 256) &&
    m.payload.all (· < 256) && optionsWF 0 m.options

/-- The absolute option number after an occurrence stream (the delta base
for whatever follows it). -/
def lastNum : Nat → List (Nat × List Nat) → Nat
  | prev, [] => prev
  | _, (n, _) :: rest => lastNum n rest

/-! ## Interactions and the serial connection (`coap_serial.go`) -/

/-- The per-request `Interaction` fields used for correlation: the request
token and message id. -/
structure Interaction where
  token : List Nat
  messageId : Nat
  deriving DecidableEq, Repr

/-- Go `serialConnection.FindInteraction`: linear scan; each entry matches if
its token byte-equals the query token (`Token.Equals`, modelled from the
spec as byte-wise equality), or if the query token is empty and the entry's
message id equals the query id. `none` models the `Not Found` error. -/
def FindInteraction : List Interaction → List Nat → Nat → Option Interaction
  | [], _, _ => none
  | ia :: rest, token, msgId =>
    if ia.token = token then some ia
    else if token = [] ∧ ia.messageId = msgId then some ia
    else FindInteraction rest token msgId

/-- The claim's (spec-worded) lookup, for comparison with
`FindInteraction`: first match by non-empty-token equality; otherwise, when
the query token is empty, first match by message id. -/
def specFindInteraction (ias : List Interaction) (token : List Nat)
    (msgId : Nat) : Option Interaction :=
  if token.isEmpty then ias.find? (fun ia => ia.messageId == msgId)
  else ias.find? (fun ia => ia.token == token)

/-- Modelled from the spec: `coapmsg.NewRst(messageId)` — a Reset message
carrying the message id, with empty code, token, options and payload
(pinned by `TestSendPingReceivePong`: type Reset, code 0, empty payload). -/
def NewRst (msgId : Nat) : Message :=
  { type := .reset
    code := 0
    messageID := msgId
    token := []
    options := []
    payload := [] }

/-- The connection state seen by the receive loop: the interaction table
and the closed flag. -/
structure ConnState where
  interactions : List Interaction
  closed : Bool
  deriving DecidableEq, Repr

/-- One iteration of `serialConnection.startReceiveLoop`, as a step
function: the read/parse outcome comes in, and the step returns the new
connection state, the messages sent back on the transport, and the messages
delivered to interactions. A read/parse error closes the connection; an
inbound message with no matching interaction triggers a single RST and is
dropped; a matched message is handed to its interaction. -/
def receiveStep (c : ConnState) (inbound : Except FormatError Message) :
    ConnState × List Message × List (Interaction × Message) :=
  match inbound with
  | .error _ => ({ c with closed := true }, [], [])
  | .ok msg =>
    match FindInteraction c.interactions msg.token msg.messageID with
    | none => (c, [NewRst msg.messageID], [])
    | some ia => (c, [], [(ia, msg)])

/-- Go `UART_CONNECTION_TIMEOUT = 1 * time.Minute`, in seconds. -/
def UART_CONNECTION_TIMEOUT : Nat := 60

/-- The `serialConnection` fields touched by the packet operations. -/
structure SerialConn where
  deadline : Nat
  closed : Bool
  deriving DecidableEq, Repr

/-- Go `serialConnection.resetDeadline`:
`c.deadline = time.Now().Add(UART_CONNECTION_TIMEOUT)`. -/
def resetDeadline (now : Nat) (c : SerialConn) : SerialConn :=
  { c with deadline := now + UART_CONNECTION_TIMEOUT }

/-- Go `serialConnection.ReadPacket`: the underlying reader's outcome `r` comes
in as a parameter (the reader is an external collaborator); the connection
calls `resetDeadline` after the read — unconditionally — and returns the
outcome unchanged. -/
def ReadPacket (c : SerialConn) (now : Nat) (r : Except String (List Nat)) :
    SerialConn × Except String (List Nat) :=
  (resetDeadline now c, r)

/-- Go `serialConnection.WritePacket`: writes the packet through the underlying
writer (outcome `r`), then calls `resetDeadline` — unconditionally — and
returns the writer's error unchanged. -/
def WritePacket (c : SerialConn) (now : Nat) (r : Except String Unit) :
    SerialConn × Except String Unit :=
  (resetDeadline now c, r)

/-! ## The UART transport front-end (`coap/transport_uart.go`) -/

/-- Go `const UartScheme = "coap+uart"`. -/
def UartScheme : String := "coap+uart"

/-- The request-URL fields read by the transport. -/
structure URL where
  scheme : String
  host : String
  path : String
  rawQuery : String
  deriving DecidableEq, Repr

/-- The `coap.Request` fields read by `RoundTrip`; `url = none` models a
nil `*url.URL`. -/
structure Request where
  url : Option URL
  method : String
  confirmable : Bool
  token : List Nat
  body : List Nat
  deriving DecidableEq, Repr

/-- Go `ValidMethod`: the methods with entries in `methodToCodeTable`. -/
def ValidMethod (m : String) : Bool :=
  m == "GET" || m == "POST" || m == "PUT" || m == "DELETE"

/-- Outcome of `TransportUart.buildRequestMessage`: an invalid method is an
error; with a valid method the function evaluates `req.URL.EscapedPath()`,
which on a nil URL is a nil-pointer dereference — a Go runtime panic. -/
inductive BuildResult
  | ok
  | errR (e : String)
  | panicked
  deriving DecidableEq, Repr

/-- Go `TransportUart.buildRequestMessage`, reduced to its control flow: the
`ValidMethod` check, then the URL dereference in
`msg.SetPathString(req.URL.EscapedPath())`. -/
def buildRequestMessage (r : Request) : BuildResult :=
  if !ValidMethod r.method then .errR "coap: Invalid method"
  else
    match r.url with
    | none => .panicked
    | some _ => .ok

/-- Outcome of `TransportUart.RoundTrip` up to the point where a connection
is obtained: an error return, a Go runtime panic, or validation passed
(`proceeded` — the transport goes on to connect and send). -/
inductive RTResult
  | rtError (e : String)
  | panicked
  | proceeded
  deriving DecidableEq, Repr

/-- Go `TransportUart.RoundTrip`, reduced to its validation control flow in
source order: nil-request check, `buildRequestMessage` (which dereferences
the URL), then the nil-URL check, then the scheme check, then
`Connecter.Connect`. -/
def RoundTrip (req : Option Request) : RTResult :=
  match req with
  | none => .rtError "coap: Got nil request"
  | some r =>
    match buildRequestMessage r with
    | .errR e => .rtError e
    | .panicked => .panicked
    | .ok =>
      match r.url with
      | none => .rtError "coap: Missing request URL"
      | some u =>
        if u.scheme != UartScheme then .rtError "coap: Invalid URL scheme"
        else .proceeded

/-- The Observe notification-pump condition in `RoundTrip`:
`reqMsg.Options().Get(coapmsg.Observe).AsUInt8() == 0 &&
resMsg.Options().Get(coapmsg.Observe).IsSet()`. -/
def shouldSpawnPump (reqOpts resOpts : CoapOptions) : Bool :=
  (reqOpts.Get Observe).AsUInt8 == 0 && (resOpts.Get Observe).IsSet

/-!
## Theorems
-/

theorem encodeIntAux_zero (k : Nat) : encodeIntAux k 0 = [] := by
  cases k <;> rfl

theorem decodeInt_encodeIntAux :
    ∀ (k x : Nat), x < 256 ^ k → decodeInt (encodeIntAux k x) = x := by
  intro k
  induction k with
  | zero =>
    intro x hx
    interval_cases x
    rfl
  | succ k ih =>
    intro x hx
    rcases Nat.eq_zero_or_pos x with rfl | hpos
    · simp [encodeIntAux_zero, decodeInt]
    · have hx' : x / 256 < 256 ^ k := by
        rw [Nat.div_lt_iff_lt_mul (by omega)]
        calc x < 256 ^ (k + 1) := hx
        _ = 256 ^ k * 256 := by ring
      have hrec := ih (x / 256) hx'
      obtain ⟨y, hy⟩ : ∃ y, x = y + 1 := ⟨x - 1, by omega⟩
      subst hy
      show decodeInt (encodeIntAux k ((y + 1) / 256) ++ [(y + 1) % 256]) = y + 1
      unfold decodeInt at hrec ⊢
      rw [List.foldl_append, hrec]
      simp only [List.foldl_cons, List.foldl_nil]
      omega

/-- The unsigned codec round-trips on the whole `uint32` range. -/
theorem decodeInt_encodeInt (x : Nat) (hx : x < 4294967296) :
    decodeInt (encodeInt x) = x := by
  unfold encodeInt
  rw [Nat.mod_eq_of_lt hx]
  exact decodeInt_encodeIntAux 4 x hx

theorem decodeInt_encodeInt_example : decodeInt (encodeInt 84239) = 84239 :=
  decodeInt_encodeInt 84239 (by norm_num)

/-- A nonzero value never encodes with a leading zero byte. -/
theorem encodeIntAux_head :
    ∀ (k x : Nat), 0 < x → x < 256 ^ k →
      ∃ h t, encodeIntAux k x = h :: t ∧ h ≠ 0 := by
  intro k
  induction k with
  | zero => intro x hpos hx; omega
  | succ k ih =>
    intro x hpos hx
    obtain ⟨y, hy⟩ : ∃ y, x = y + 1 := ⟨x - 1, by omega⟩
    subst hy
    show ∃ h t, encodeIntAux k ((y + 1) / 256) ++ [(y + 1) % 256] = h :: t ∧ h ≠ 0
    rcases Nat.eq_zero_or_pos ((y + 1) / 256) with hz | hq
    · rw [hz, encodeIntAux_zero]
      refine ⟨(y + 1) % 256, [], rfl, ?_⟩
      have : y + 1 < 256 := by omega
      omega
    · have hx' : (y + 1) / 256 < 256 ^ k := by
        rw [Nat.div_lt_iff_lt_mul (by omega)]
        calc y + 1 < 256 ^ (k + 1) := hx
        _ = 256 ^ k * 256 := by ring
      obtain ⟨h, t, heq, hne⟩ := ih ((y + 1) / 256) hq hx'
      exact ⟨h, t ++ [(y + 1) % 256], by rw [heq]; rfl, hne⟩

/-! ### Codec round-trip machinery -/

theorem extNibble_fst_le (v : Nat) : (extNibble v).1 ≤ 14 := by
  unfold extNibble
  split_ifs with h1 h2
  · show v ≤ 14
    omega
  · show 13 ≤ 14
    omega
  · show 14 ≤ 14
    omega

theorem parseExtN_extNibble (x : Nat) (hx : x ≤ 65804) (t : List Nat) :
    parseExtN (extNibble x).1 ((extNibble x).2 ++ t) = some (x, t) := by
  by_cases h13 : x < 13
  · have h : extNibble x = (x, []) := by simp [extNibble, h13]
    rw [h]
    simp [parseExtN, h13]
  · by_cases h269 : x < 269
    · have h : extNibble x = (13, [x - 13]) := by
        simp [extNibble, h13, h269]
      rw [h]
      show parseExtN 13 ((x - 13) :: t) = some (x, t)
      simp [parseExtN]
      omega
    · have h : extNibble x = (14, [(x - 269) / 256, (x - 269) % 256]) := by
        simp [extNibble, h13, h269]
      rw [h]
      show parseExtN 14 ((x - 269) / 256 :: (x - 269) % 256 :: t) = some (x, t)
      simp [parseExtN]
      omega

/-- One parser step on one encoded option occurrence: the header byte and
extension bytes are decoded back to the absolute number `n` and the value
`v`, and the parse continues behind them according to the length check. -/
theorem parseOptsAux_step (fuel prev n : Nat) (v rest : List Nat)
    (hprev : prev ≤ n) (hn : n < 65536) (hv : v.length ≤ 65804) :
    parseOptsAux (fuel + 1) prev (encodeOpt (n - prev) v ++ rest) =
      match checkLen n v.length with
      | .fail => .error .criticalLength
      | .drop => parseOptsAux fuel n rest
      | .keep =>
        match parseOptsAux fuel n rest with
        | .ok (s, pl) => .ok ((n, v) :: s, pl)
        | .error e => .error e := by
  have hdn := extNibble_fst_le (n - prev)
  have hln := extNibble_fst_le v.length
  have hd65 : n - prev ≤ 65804 := by omega
  have hshape : encodeOpt (n - prev) v ++ rest =
      ((extNibble (n - prev)).1 * 16 + (extNibble v.length).1) ::
        ((extNibble (n - prev)).2 ++ ((extNibble v.length).2 ++ (v ++ rest))) := by
    simp [encodeOpt, List.append_assoc]
  rw [hshape]
  have hb255 : ((extNibble (n - prev)).1 * 16 + (extNibble v.length).1 = 255)
      = False := by
    simp only [eq_iff_iff, iff_false]
    omega
  have hdiv : ((extNibble (n - prev)).1 * 16 + (extNibble v.length).1) / 16
      = (extNibble (n - prev)).1 := by omega
  have hmod : ((extNibble (n - prev)).1 * 16 + (extNibble v.length).1) % 16
      = (extNibble v.length).1 := by omega
  simp only [parseOptsAux, hb255, if_false, hdiv, hmod,
    parseExtN_extNibble (n - prev) hd65, parseExtN_extNibble v.length hv]
  have hnlt : ¬((v ++ rest).length < v.length) := by simp
  rw [if_neg hnlt, List.take_left, List.drop_left, Nat.add_sub_cancel' hprev]

/-- Weakening the lower bound preserved by an occurrence stream. -/
theorem streamWF_mono (s : List (Nat × List Nat)) (p q : Nat) (hq : q ≤ p)
    (h : streamWF p s = true) : streamWF q s = true := by
  cases s with
  | nil => rfl
  | cons occ rest =>
    obtain ⟨n, v⟩ := occ
    unfold streamWF at h ⊢
    simp only [Bool.and_eq_true, decide_eq_true_eq] at h ⊢
    exact ⟨⟨by omega, h.1.2⟩, h.2⟩

theorem streamWF_vals (vs : List (List Nat)) :
    ∀ (n : Nat) (s : List (Nat × List Nat)) (prev : Nat),
      prev ≤ n → vs.all (occWF n) = true → streamWF n s = true →
      streamWF prev (vs.map (fun v => (n, v)) ++ s) = true := by
  induction vs with
  | nil =>
    intro n s prev hp _ hs
    exact streamWF_mono s n prev hp hs
  | cons v vtl ih =>
    intro n s prev hp hall hs
    simp only [List.all_cons, Bool.and_eq_true] at hall
    show streamWF prev ((n, v) :: (vtl.map (fun v => (n, v)) ++ s)) = true
    unfold streamWF
    simp only [Bool.and_eq_true, decide_eq_true_eq]
    exact ⟨⟨hp, hall.1⟩, ih n s n (Nat.le_refl n) hall.2 hs⟩

theorem streamWF_optStream (opts : List (Nat × List (List Nat))) :
    ∀ (lo prev : Nat), prev ≤ lo → optionsWF lo opts = true →
      streamWF prev (optStream opts) = true := by
  induction opts with
  | nil => intro lo prev _ _; rfl
  | cons q rest ih =>
    obtain ⟨n, vs⟩ := q
    intro lo prev hp h
    unfold optionsWF at h
    simp only [Bool.and_eq_true, decide_eq_true_eq] at h
    obtain ⟨⟨⟨⟨hlo, _⟩, hall⟩, _⟩, hrest⟩ := h
    show streamWF prev (optStream ((n, vs) :: rest)) = true
    have hflat : optStream ((n, vs) :: rest) =
        vs.map (fun v => (n, v)) ++ optStream rest := by
      simp [optStream]
    rw [hflat]
    exact streamWF_vals vs n (optStream rest) prev (by omega) hall
      (ih (n + 1) n (Nat.le_succ n) hrest)

theorem insertOpt_of_notmem (acc : List (Nat × List (List Nat))) :
    ∀ (n : Nat) (v : List Nat), (∀ p ∈ acc, p.1 ≠ n) →
      insertOpt acc n v = acc ++ [(n, [v])] := by
  induction acc with
  | nil => intro n v _; rfl
  | cons q rest ih =>
    intro n v h
    obtain ⟨k, vs⟩ := q
    have hk : k ≠ n := h (k, vs) (by simp)
    show insertOpt ((k, vs) :: rest) n v = _
    unfold insertOpt
    rw [if_neg hk, ih n v (fun p hp => h p (by simp [hp]))]
    rfl

theorem insertOpt_append_last (acc : List (Nat × List (List Nat))) :
    ∀ (n : Nat) (vs : List (List Nat)) (v : List Nat),
      (∀ p ∈ acc, p.1 ≠ n) →
      insertOpt (acc ++ [(n, vs)]) n v = acc ++ [(n, vs ++ [v])] := by
  induction acc with
  | nil =>
    intro n vs v _
    show insertOpt [(n, vs)] n v = [(n, vs ++ [v])]
    unfold insertOpt
    rw [if_pos rfl]
  | cons q rest ih =>
    intro n vs v h
    obtain ⟨k, ws⟩ := q
    have hk : k ≠ n := h (k, ws) (by simp)
    show insertOpt ((k, ws) :: (rest ++ [(n, vs)])) n v = _
    unfold insertOpt
    rw [if_neg hk, ih n vs v (fun p hp => h p (by simp [hp]))]
    rfl

theorem foldl_insert_vals (vs : List (List Nat)) :
    ∀ (acc : List (Nat × List (List Nat))) (n : Nat) (w : List (List Nat)),
      (∀ p ∈ acc, p.1 ≠ n) →
      List.foldl (fun acc p => insertOpt acc p.1 p.2) (acc ++ [(n, w)])
          (vs.map (fun v => (n, v))) = acc ++ [(n, w ++ vs)] := by
  induction vs with
  | nil => intro acc n w _; simp
  | cons v vrest ih =>
    intro acc n w h
    simp only [List.map_cons, List.foldl_cons]
    rw [insertOpt_append_last acc n w v h, ih acc n (w ++ [v]) h]
    simp

theorem foldl_insert_stream (opts : List (Nat × List (List Nat))) :
    ∀ (lo : Nat) (acc : List (Nat × List (List Nat))),
      optionsWF lo opts = true →
      (∀ p ∈ acc, p.1 < lo) →
      List.foldl (fun acc p => insertOpt acc p.1 p.2) acc (optStream opts) =
        acc ++ opts := by
  induction opts with
  | nil => intro lo acc _ _; simp [optStream]
  | cons q rest ih =>
    obtain ⟨n, vs⟩ := q
    intro lo acc h hacc
    unfold optionsWF at h
    simp only [Bool.and_eq_true, decide_eq_true_eq] at h
    obtain ⟨⟨⟨⟨hlo, hne⟩, _⟩, _⟩, hrest⟩ := h
    obtain ⟨v0, vtl, rfl⟩ : ∃ v0 vtl, vs = v0 :: vtl := by
      cases vs with
      | nil => simp at hne
      | cons a b => exact ⟨a, b, rfl⟩
    have hnot : ∀ p ∈ acc, p.1 ≠ n := fun p hp => by
      have := hacc p hp
      omega
    have hflat : optStream ((n, v0 :: vtl) :: rest) =
        (n, v0) :: (vtl.map (fun v => (n, v)) ++ optStream rest) := by
      simp [optStream]
    rw [hflat]
    simp only [List.foldl_cons, List.foldl_append]
    have h0 : insertOpt acc n v0 = acc ++ [(n, [v0])] :=
      insertOpt_of_notmem acc n v0 hnot
    rw [h0]
    have h1 := foldl_insert_vals vtl acc n [v0] hnot
    rw [h1]
    have h2 := ih (n + 1) (acc ++ [(n, [v0] ++ vtl)]) hrest (by
      intro p hp
      rcases List.mem_append.mp hp with hp | hp
      · have := hacc p hp
        omega
      · simp only [List.mem_singleton] at hp
        subst hp
        exact Nat.lt_succ_self n)
    rw [h2]
    simp

theorem buildOpts_optStream (opts : List (Nat × List (List Nat)))
    (h : optionsWF 0 opts = true) : buildOpts (optStream opts) = opts := by
  unfold buildOpts
  have := foldl_insert_stream opts 0 [] h (by simp)
  simpa using this

/-- Parsing the encoding of a well-formed occurrence stream consumes it
whole (every occurrence passes the length check) and continues on the
trailing bytes, prefixing the decoded stream with the original one. -/
theorem parseOpts_enc_gen (s : List (Nat × List Nat)) :
    ∀ (prev fuel : Nat) (tail : List Nat)
      (res : Except FormatError (List (Nat × List Nat) × List Nat)),
      streamWF prev s = true →
      (encodeStream prev s).length + tail.length ≤ fuel →
      (∀ f, tail.length ≤ f → parseOptsAux f (lastNum prev s) tail = res) →
      parseOptsAux fuel prev (encodeStream prev s ++ tail) =
        Except.map (fun r => (s ++ r.1, r.2)) res := by
  induction s with
  | nil =>
    intro prev fuel tail res _ hfuel htail
    have h1 : parseOptsAux fuel prev tail = res :=
      htail fuel (by simpa [encodeStream] using hfuel)
    show parseOptsAux fuel prev ([] ++ tail) = _
    rw [List.nil_append, h1]
    cases res with
    | ok r => cases r; simp [Except.map]
    | error e => simp [Except.map]
  | cons occ rest ih =>
    obtain ⟨n, v⟩ := occ
    intro prev fuel tail res hwf hfuel htail
    unfold streamWF at hwf
    simp only [Bool.and_eq_true, decide_eq_true_eq] at hwf
    obtain ⟨⟨hprev, hocc⟩, hrest⟩ := hwf
    unfold occWF at hocc
    simp only [Bool.and_eq_true, decide_eq_true_eq] at hocc
    obtain ⟨⟨hn, hleg⟩, hvlen⟩ := hocc
    have hshape : encodeStream prev ((n, v) :: rest) ++ tail =
        encodeOpt (n - prev) v ++ (encodeStream n rest ++ tail) := by
      show (encodeOpt (n - prev) v ++ encodeStream n rest) ++ tail = _
      simp [List.append_assoc]
    have hlen1 : 0 < (encodeOpt (n - prev) v).length := by simp [encodeOpt]
    have hlen2 : (encodeStream prev ((n, v) :: rest)).length =
        (encodeOpt (n - prev) v).length + (encodeStream n rest).length := by
      show (encodeOpt (n - prev) v ++ encodeStream n rest).length = _
      simp
    obtain ⟨f, rfl⟩ : ∃ f, fuel = f + 1 := ⟨fuel - 1, by omega⟩
    rw [hshape, parseOptsAux_step f prev n v _ hprev hn hvlen]
    have hkeep : checkLen n v.length = .keep := by
      unfold checkLen
      rw [if_pos hleg]
    rw [hkeep]
    have hrec := ih n f tail res hrest (by omega) htail
    rw [hrec]
    cases res with
    | ok r =>
      obtain ⟨s', pl⟩ := r
      simp [Except.map]
    | error e => simp [Except.map]

/-- Lemma: `ParseMessage` on a 4-byte header built like the marshaller's, followed
by a token and a body: the header fields are recovered exactly and the body
goes to the option-stream parser. -/
theorem parseMessage_shape (ty : COAPType) (code mid : Nat)
    (tok body : List Nat) (htok : tok.length ≤ 8) :
    ParseMessage ((64 + ty.toNat * 16 + tok.length) :: code ::
        (mid / 256) :: (mid % 256) :: (tok ++ body)) =
      match parseOptsAux (tok ++ body).length 0 body with
      | .error e => .error e
      | .ok (s, pl) =>
        .ok { type := ty, code := code, messageID := mid, token := tok,
              options := buildOpts s, payload := pl } := by
  have hty : ty.toNat ≤ 3 := by cases ty <;> simp [COAPType.toNat]
  have hunf : ParseMessage ((64 + ty.toNat * 16 + tok.length) :: code ::
      (mid / 256) :: (mid % 256) :: (tok ++ body)) =
      (if (64 + ty.toNat * 16 + tok.length) / 64 ≠ 1 then
        Except.error FormatError.badVersion
      else if (64 + ty.toNat * 16 + tok.length) % 16 > 8 then
        Except.error FormatError.badTokenLength
      else if (tok ++ body).length < (64 + ty.toNat * 16 + tok.length) % 16 then
        Except.error FormatError.truncated
      else
        match parseOptsAux (tok ++ body).length 0
            ((tok ++ body).drop ((64 + ty.toNat * 16 + tok.length) % 16)) with
        | .error e => .error e
        | .ok (s, pl) =>
          .ok { type := typeFromWire ((64 + ty.toNat * 16 + tok.length) / 16 % 4)
                code := code
                messageID := (mid / 256) * 256 + (mid % 256)
                token := (tok ++ body).take ((64 + ty.toNat * 16 + tok.length) % 16)
                options := buildOpts s
                payload := pl }) := rfl
  rw [hunf]
  rw [if_neg (by omega : ¬((64 + ty.toNat * 16 + tok.length) / 64 ≠ 1))]
  have hmod16 : (64 + ty.toNat * 16 + tok.length) % 16 = tok.length := by omega
  rw [if_neg (by omega : ¬((64 + ty.toNat * 16 + tok.length) % 16 > 8))]
  rw [hmod16]
  rw [if_neg (by simp : ¬((tok ++ body).length < tok.length))]
  rw [List.drop_left, List.take_left]
  have htype : typeFromWire ((64 + ty.toNat * 16 + tok.length) / 16 % 4) = ty := by
    have : (64 + ty.toNat * 16 + tok.length) / 16 % 4 = ty.toNat := by omega
    rw [this]
    cases ty <;> rfl
  rw [htype]
  have hmidr : mid / 256 * 256 + mid % 256 = mid := by omega
  rw [hmidr]

/-- C1: parsing the result of encoding any well-formed message — valid
type, 8-bit code, 16-bit message id, token of 0–8 bytes, options with
registered-legal lengths, arbitrary payload — yields the message back:
same type, code, message id, token, payload, and option multimap with
element-wise equal value lists per option number. -/
theorem parse_roundtrip (m : Message) (h : wellFormed m = true) :
    ParseMessage (MarshalBinary m) = .ok m := by
  obtain ⟨ty, code, mid, tok, opts, pl⟩ := m
  unfold wellFormed at h
  simp only [Bool.and_eq_true, decide_eq_true_eq] at h
  obtain ⟨⟨⟨⟨⟨hcode, hmid⟩, htok⟩, _⟩, _⟩, hopts⟩ := h
  have hswf : streamWF 0 (optStream opts) = true :=
    streamWF_optStream opts 0 0 (Nat.le_refl 0) hopts
  cases pl with
  | nil =>
    show ParseMessage ((64 + ty.toNat * 16 + tok.length) :: code ::
        (mid / 256) :: (mid % 256) ::
        (tok ++ encodeStream 0 (optStream opts) ++ [])) = _
    rw [List.append_assoc, List.append_nil,
      parseMessage_shape ty code mid tok _ htok]
    have henc := parseOpts_enc_gen (optStream opts) 0
      ((tok ++ encodeStream 0 (optStream opts)).length) [] (.ok ([], []))
      hswf (by simp) (fun f _ => by cases f <;> rfl)
    rw [List.append_nil] at henc
    rw [henc]
    show Except.ok _ = _
    simp [buildOpts_optStream opts hopts]
  | cons p0 ptl =>
    show ParseMessage ((64 + ty.toNat * 16 + tok.length) :: code ::
        (mid / 256) :: (mid % 256) ::
        (tok ++ encodeStream 0 (optStream opts) ++ (255 :: p0 :: ptl))) = _
    rw [List.append_assoc, parseMessage_shape ty code mid tok _ htok]
    have henc := parseOpts_enc_gen (optStream opts) 0
      ((tok ++ (encodeStream 0 (optStream opts) ++ (255 :: p0 :: ptl))).length)
      (255 :: p0 :: ptl) (.ok ([], p0 :: ptl))
      hswf (by simp) (fun f hf => by
        obtain ⟨f', rfl⟩ : ∃ f', f = f' + 1 := ⟨f - 1, by simp at hf; omega⟩
        rfl)
    rw [henc]
    show Except.ok _ = _
    simp [buildOpts_optStream opts hopts]

/-- Witness for C1: a confirmable GET with message id 12345, token
`[1, 2, 3]`, an ETag, two Uri-Path segments, an unregistered option 1000,
and payload `hi`. -/
theorem parse_roundtrip_witness :
    wellFormed ⟨.confirmable, 1, 12345, [1, 2, 3],
        [(4, [[119, 101, 101, 116, 97, 103]]), (11, [[120], [121]]),
          (1000, [[5, 6]])], [104, 105]⟩ = true ∧
      ParseMessage (MarshalBinary ⟨.confirmable, 1, 12345, [1, 2, 3],
        [(4, [[119, 101, 101, 116, 97, 103]]), (11, [[120], [121]]),
          (1000, [[5, 6]])], [104, 105]⟩) =
        .ok ⟨.confirmable, 1, 12345, [1, 2, 3],
          [(4, [[119, 101, 101, 116, 97, 103]]), (11, [[120], [121]]),
            (1000, [[5, 6]])], [104, 105]⟩ :=
  ⟨by decide, parse_roundtrip _ (by decide)⟩

/-- C2: decoding fails with a format error — and yields no message — on
every input shorter than 4 bytes, every input whose version field is not 1,
every input whose token-length nibble exceeds 8, and every input whose
option section ends in a payload marker with no bytes after it. -/
theorem decode_rejects_malformed :
    (∀ data : List Nat, data.length < 4 →
        ParseMessage data = .error .tooShort) ∧
      (∀ (b0 b1 b2 b3 : Nat) (rest : List Nat), b0 / 64 ≠ 1 →
        ParseMessage (b0 :: b1 :: b2 :: b3 :: rest) = .error .badVersion) ∧
      (∀ (b0 b1 b2 b3 : Nat) (rest : List Nat), b0 % 16 > 8 →
        parseFails (ParseMessage (b0 :: b1 :: b2 :: b3 :: rest)) = true) ∧
      (∀ m : Message, wellFormed m = true → m.payload = [] →
        ParseMessage (MarshalBinary m ++ [255]) = .error .emptyPayload) := by
  refine ⟨?_, ?_, ?_, ?_⟩
  · intro data hlen
    rcases data with _ | ⟨a, _ | ⟨b, _ | ⟨c, _ | ⟨d, rest⟩⟩⟩⟩
    · rfl
    · rfl
    · rfl
    · rfl
    · exfalso
      simp at hlen
      omega
  · intro b0 b1 b2 b3 rest h
    simp only [ParseMessage]
    rw [if_pos h]
  · intro b0 b1 b2 b3 rest h
    simp only [ParseMessage]
    by_cases hv : b0 / 64 ≠ 1
    · rw [if_pos hv]
      rfl
    · rw [if_neg hv, if_pos h]
      rfl
  · intro m hwf hpl
    obtain ⟨ty, code, mid, tok, opts, pl⟩ := m
    simp only at hpl
    subst hpl
    unfold wellFormed at hwf
    simp only [Bool.and_eq_true, decide_eq_true_eq] at hwf
    obtain ⟨⟨⟨⟨⟨hcode, hmid⟩, htok⟩, _⟩, _⟩, hopts⟩ := hwf
    have hshape : MarshalBinary ⟨ty, code, mid, tok, opts, []⟩ ++ [255] =
        (64 + ty.toNat * 16 + tok.length) :: code ::
          (mid / 256) :: (mid % 256) ::
          (tok ++ (encodeStream 0 (optStream opts) ++ [255])) := by
      show ((64 + ty.toNat * 16 + tok.length) :: code ::
          (mid / 256) :: (mid % 256) ::
          (tok ++ encodeStream 0 (optStream opts) ++ [])) ++ [255] = _
      simp [List.append_assoc]
    rw [hshape, parseMessage_shape ty code mid tok _ htok]
    have henc := parseOpts_enc_gen (optStream opts) 0
      ((tok ++ (encodeStream 0 (optStream opts) ++ [255])).length) [255]
      (.error .emptyPayload)
      (streamWF_optStream opts 0 0 (Nat.le_refl 0) hopts)
      (by simp)
      (fun f hf => by
        obtain ⟨f', rfl⟩ : ∃ f', f = f' + 1 := ⟨f - 1, by simp at hf; omega⟩
        rfl)
    rw [henc]
    rfl

/-- Witness for C2: a 1-byte input, a version-3 input, a TKL-15 input, and
a marshalled empty-payload message with a stray trailing marker. -/
theorem decode_rejects_malformed_witness :
    ParseMessage [64] = .error .tooShort ∧
      ParseMessage (255 :: 0 :: 0 :: 0 :: [0, 0]) = .error .badVersion ∧
      parseFails (ParseMessage (79 :: 0 :: 0 :: 0 :: [0, 0])) = true ∧
      ParseMessage (MarshalBinary ⟨.confirmable, 1, 43981, [], [], []⟩
        ++ [255]) = .error .emptyPayload :=
  ⟨decode_rejects_malformed.1 [64] (by decide),
    decode_rejects_malformed.2.1 255 0 0 0 [0, 0] (by decide),
    decode_rejects_malformed.2.2.1 79 0 0 0 [0, 0] (by decide),
    decode_rejects_malformed.2.2.2 ⟨.confirmable, 1, 43981, [], [], []⟩
      (by decide) rfl⟩

/-- C3: an encoded option occurrence whose value length is outside the
registered bounds fails the whole decode when its number is critical (odd),
and is skipped — bytes consumed, the rest of the input parsed exactly as if
the occurrence were absent — when its number is non-critical. -/
theorem illegal_length_option_handling (fuel prev n : Nat)
    (v rest : List Nat) (hprev : prev ≤ n) (hn : n < 65536)
    (hv : v.length ≤ 65804) (hbad : legalLen n v.length = false) :
    (critical n = true →
      parseOptsAux (fuel + 1) prev (encodeOpt (n - prev) v ++ rest) =
        .error .criticalLength) ∧
      (critical n = false →
        parseOptsAux (fuel + 1) prev (encodeOpt (n - prev) v ++ rest) =
          parseOptsAux fuel n rest) := by
  rw [parseOptsAux_step fuel prev n v rest hprev hn hv]
  constructor
  · intro hc
    have hk : checkLen n v.length = .fail := by
      unfold checkLen
      rw [if_neg (by simp [hbad]), if_pos hc]
    rw [hk]
  · intro hc
    have hk : checkLen n v.length = .drop := by
      unfold checkLen
      rw [if_neg (by simp [hbad]), if_neg (by simp [hc])]
    rw [hk]

/-- Witness for C3 at the repository's own test input: a Uri-Port option
(number 7, critical) with illegal length 3, followed by marker and
payload byte. -/
theorem illegal_length_option_handling_witness :
    (critical 7 = true →
      parseOptsAux (5 + 1) 0 (encodeOpt (7 - 0) [17, 34, 51] ++ [255, 221]) =
        .error .criticalLength) ∧
      (critical 7 = false →
        parseOptsAux (5 + 1) 0 (encodeOpt (7 - 0) [17, 34, 51] ++ [255, 221]) =
          parseOptsAux 5 7 [255, 221]) :=
  illegal_length_option_handling 5 0 7 [17, 34, 51] [255, 221]
    (by decide) (by decide) (by decide) (by decide)

/-- The modelled marshaller reproduces the byte vectors pinned by
`TestEncodeMessageWithoutOptionsAndPayload`, `TestEncodeMessageSmall`,
`TestEncodeMessageSmallWithPayload` and `TestPathAsOption`. -/
theorem marshal_matches_test_vectors :
    MarshalBinary ⟨.confirmable, 1, 12345, [], [], []⟩ = [64, 1, 48, 57] ∧
      MarshalBinary ⟨.confirmable, 1, 12345, [],
          [(4, [[119, 101, 101, 116, 97, 103]]), (14, [[3]])], []⟩ =
        [64, 1, 48, 57, 70, 119, 101, 101, 116, 97, 103, 161, 3] ∧
      MarshalBinary ⟨.confirmable, 1, 12345, [],
          [(4, [[119, 101, 101, 116, 97, 103]]), (14, [[3]])], [104, 105]⟩ =
        [64, 1, 48, 57, 70, 119, 101, 101, 116, 97, 103, 161, 3,
          255, 104, 105] ∧
      MarshalBinary ⟨.confirmable, 1, 12345, [], [(8, [[97], [98]])], []⟩ =
        [64, 1, 48, 57, 129, 97, 1, 98] := by
  decide

/-- The modelled parser reproduces the decode behavior pinned by
`TestOptionsWithIllegalLengthAreIgnoredDuringParsing` (critical Uri-Port
length 3 fails; non-critical Max-Age length 5 is dropped), `TestExample1`
and `TestExample1Res`. -/
theorem parse_matches_test_vectors :
    ParseMessage [64, 1, 171, 205, 115, 17, 34, 51, 255, 221] =
        .error .criticalLength ∧
      ParseMessage [64, 1, 171, 205, 213, 1, 17, 34, 51, 68, 85, 255, 239] =
        .ok ⟨.confirmable, 1, 43981, [], [], [239]⟩ ∧
      ParseMessage [64, 1, 125, 52, 187, 116, 101, 109, 112, 101, 114, 97,
          116, 117, 114, 101] =
        .ok ⟨.confirmable, 1, 32052, [],
          [(11, [[116, 101, 109, 112, 101, 114, 97, 116, 117, 114, 101]])],
          []⟩ ∧
      ParseMessage [96, 69, 125, 52, 255, 50, 50, 46, 51, 32, 67] =
        .ok ⟨.acknowledgement, 69, 32052, [], [], [50, 50, 46, 51, 32, 67]⟩ :=
  ⟨rfl, rfl, rfl, rfl⟩

/-- C4: the unsigned option codec round-trips (`decodeInt (encodeInt 1024)
= 1024` with the big-endian, leading-zero-stripped bytes `[4, 0]`), but
reading that stored multi-byte value through `OptionValue.AsUInt32` returns
its little-endian interpretation 4, not the big-endian 1024 the claim (and
the codec's own storage format) requires. -/
theorem uint_option_reader_little_endian_bug :
    decodeInt (encodeInt 1024) = 1024 ∧ encodeInt 1024 = [4, 0] ∧
      (OptionValue.mk [4, 0] false).AsUInt32 = 4 := by
  refine ⟨?_, ?_, ?_⟩ <;> decide

/-- C10: `Options().Get` on an absent key (or a key mapping to an empty
value list) returns the `NilOption` sentinel: `IsSet` is false and all the
unsigned readers return 0. -/
theorem get_absent_option_is_nil (h : CoapOptions) (k : Nat)
    (hk : List.lookup k h = none ∨ List.lookup k h = some []) :
    h.Get k = NilOption ∧ (h.Get k).IsSet = false ∧
      (h.Get k).AsUInt8 = 0 ∧ (h.Get k).AsUInt16 = 0 ∧
      (h.Get k).AsUInt32 = 0 ∧ (h.Get k).AsUInt64 = 0 := by
  have hg : h.Get k = NilOption := by
    unfold CoapOptions.Get
    rcases hk with hk | hk <;> rw [hk]
  rw [hg]
  exact ⟨rfl, rfl, rfl, rfl, rfl, rfl⟩

/-- Witness for C10 at the empty option map and the Max-Age key. -/
theorem get_absent_option_is_nil_witness :
    CoapOptions.Get [] 14 = NilOption ∧
      (CoapOptions.Get [] 14).IsSet = false ∧
      (CoapOptions.Get [] 14).AsUInt8 = 0 ∧
      (CoapOptions.Get [] 14).AsUInt16 = 0 ∧
      (CoapOptions.Get [] 14).AsUInt32 = 0 ∧
      (CoapOptions.Get [] 14).AsUInt64 = 0 :=
  get_absent_option_is_nil [] 14 (Or.inl rfl)

/-- C6 counterexample: with an empty query token, `FindInteraction` returns
the first interaction whose token is also empty (token equality fires on
empty tokens), not the first interaction whose message id matches as the
claim states. -/
theorem findInteraction_empty_token_counterexample :
    FindInteraction [⟨[], 5⟩, ⟨[1], 7⟩] [] 7 = some ⟨[], 5⟩ ∧
      specFindInteraction [⟨[], 5⟩, ⟨[1], 7⟩] [] 7 = some ⟨[1], 7⟩ :=
  ⟨rfl, rfl⟩

/-- C6 amended: `FindInteraction` is a single linear scan returning the
first interaction whose token byte-equals the query token, or — when the
query token is empty — whose message id equals the query id; it reports
not-found exactly when no entry satisfies that disjunction. -/
theorem findInteraction_eq_find (ias : List Interaction) (t : List Nat)
    (m : Nat) :
    FindInteraction ias t m =
      ias.find? (fun ia =>
        decide (ia.token = t) || (decide (t = []) && decide (ia.messageId = m))) := by
  induction ias with
  | nil => rfl
  | cons ia rest ih =>
    rw [List.find?_cons]
    by_cases h1 : ia.token = t
    · simp [FindInteraction, h1]
    · by_cases h2 : t = [] ∧ ia.messageId = m
      · simp [FindInteraction, h1, h2.1, h2.2]
      · have : ¬(t = [] ∧ ia.messageId = m) := h2
        simp only [FindInteraction, if_neg h1, if_neg this, ih]
        rcases Decidable.not_and_iff_or_not.mp h2 with h | h <;>
          simp [h1, h]

/-- C9 counterexample: a failing underlying read or write still refreshes
the idle deadline (`resetDeadline` runs unconditionally), so the deadline is
not left unchanged on failure as the claim states. -/
theorem packet_deadline_failure_counterexample :
    (WritePacket ⟨0, false⟩ 100 (.error "write failed")).1.deadline = 160 ∧
      (ReadPacket ⟨0, false⟩ 100 (.error "read failed")).1.deadline = 160 :=
  ⟨rfl, rfl⟩

/-- C9 amended: every `ReadPacket`/`WritePacket` call sets the deadline to
now plus the UART timeout — on success and on failure alike — leaves every
other connection field unchanged, and returns the underlying outcome
unchanged. -/
theorem packet_ops_refresh_deadline (c : SerialConn) (now : Nat)
    (rr : Except String (List Nat)) (wr : Except String Unit) :
    ReadPacket c now rr = ({ c with deadline := now + UART_CONNECTION_TIMEOUT }, rr) ∧
      WritePacket c now wr = ({ c with deadline := now + UART_CONNECTION_TIMEOUT }, wr) :=
  ⟨rfl, rfl⟩

/-- C5: the nil-request, invalid-method and wrong-scheme cases do return
errors before any connection is obtained, but a non-nil request with a nil
URL and a valid method panics: `buildRequestMessage` dereferences
`req.URL` (`SetPathString(req.URL.EscapedPath())`) before `RoundTrip`'s
`Missing request URL` check can run. -/
theorem roundTrip_nil_url_panics :
    RoundTrip none = .rtError "coap: Got nil request" ∧
      RoundTrip (some ⟨some ⟨"coap+uart", "COM3", "/x", ""⟩, "PATCH", false, [], []⟩) =
        .rtError "coap: Invalid method" ∧
      RoundTrip (some ⟨some ⟨"http", "COM3", "/x", ""⟩, "GET", false, [], []⟩) =
        .rtError "coap: Invalid URL scheme" ∧
      RoundTrip (some ⟨none, "GET", false, [], []⟩) = .panicked := by
  refine ⟨rfl, ?_, ?_, rfl⟩ <;> decide

/-- The `Missing request URL` check in `RoundTrip` is dead code: no request
at all can reach it, because `buildRequestMessage` already panicked on any
nil URL that survives the method check. -/
theorem roundTrip_missing_url_unreachable (r : Request) :
    (RoundTrip (some r) = .rtError "coap: Missing request URL") = False := by
  simp only [eq_iff_iff, iff_false]
  unfold RoundTrip buildRequestMessage
  by_cases hm : ValidMethod r.method
  · rcases hu : r.url with _ | u
    · simp [hm, hu]
    · simp only [hm, Bool.not_true, Bool.false_eq_true, if_false, hu]
      split <;> simp
  · simp [hm]

/-- C8 counterexample: a request message carrying no Observe option at all
still satisfies the pump condition whenever the response carries one —
`Get` returns `NilOption` whose `AsUInt8` is 0 — contradicting the claim
that no pump is spawned for a request without the Observe option. -/
theorem pump_without_observe_counterexample :
    shouldSpawnPump [] [(6, [OptionValue.mk [1] false])] = true ∧
      (CoapOptions.Get [] Observe).IsSet = false :=
  ⟨rfl, rfl⟩

/-- C8 amended: after a successful round trip the notification pump is
spawned iff the response carries an Observe option and the request's
Observe option *reads* as 0 — which holds both when the request carries
Observe with (canonically encoded) value 0 and when it carries no Observe
option at all. -/
theorem pump_condition_characterized :
    (∀ reqOpts resOpts : CoapOptions, List.lookup Observe reqOpts = none →
        shouldSpawnPump reqOpts resOpts = (resOpts.Get Observe).IsSet) ∧
      (∀ (reqOpts resOpts : CoapOptions) (x : Nat), x < 4294967296 →
        reqOpts.Get Observe = OptionValue.mk (encodeInt x) false →
        shouldSpawnPump reqOpts resOpts =
          (decide (x = 0) && (resOpts.Get Observe).IsSet)) := by
  constructor
  · intro reqOpts resOpts hnone
    have hget : reqOpts.Get Observe = NilOption := by
      unfold CoapOptions.Get
      rw [hnone]
    unfold shouldSpawnPump
    rw [hget]
    rfl
  · intro reqOpts resOpts x hx hget
    unfold shouldSpawnPump
    rw [hget]
    rcases Nat.eq_zero_or_pos x with rfl | hpos
    · rfl
    · obtain ⟨hd, tl, heq, hne⟩ :=
        encodeIntAux_head 4 x hpos (by norm_num; omega)
      have hx' : x % 4294967296 = x := Nat.mod_eq_of_lt hx
      have henc : encodeInt x = hd :: tl := by
        unfold encodeInt
        rw [hx', heq]
      rw [henc]
      have h0 : decide (x = 0) = false := by simp; omega
      rw [h0]
      have h8 : OptionValue.AsUInt8 ⟨hd :: tl, false⟩ = hd := rfl
      rw [h8]
      have hb : (hd == 0) = false := by simp [hne]
      rw [hb]

/-- Witness for C8's amended characterization at concrete option maps:
a request without Observe, and a request with Observe canonically set
to 0. -/
theorem pump_condition_characterized_witness :
    (shouldSpawnPump [] [(6, [OptionValue.mk [1] false])] =
        (CoapOptions.Get [(6, [OptionValue.mk [1] false])] Observe).IsSet) ∧
      (shouldSpawnPump [(6, [OptionValue.mk [] false])] [] =
        (decide ((0 : Nat) = 0) && (CoapOptions.Get [] Observe).IsSet)) :=
  ⟨pump_condition_characterized.1 [] [(6, [OptionValue.mk [1] false])] rfl,
    pump_condition_characterized.2 [(6, [OptionValue.mk [] false])] [] 0
      (by decide) (by decide)⟩

/-- C7: an inbound message that matches no registered interaction makes the
receive loop emit exactly one Reset — type Reset, code 0, the inbound
message id, no token, no payload — deliver nothing, and leave the
connection state (including the closed flag) unchanged. -/
theorem unmatched_inbound_triggers_rst (c : ConnState) (msg : Message)
    (h : FindInteraction c.interactions msg.token msg.messageID = none) :
    receiveStep c (.ok msg) = (c, [NewRst msg.messageID], []) ∧
      (NewRst msg.messageID).type = .reset ∧
      (NewRst msg.messageID).code = 0 ∧
      (NewRst msg.messageID).messageID = msg.messageID ∧
      (NewRst msg.messageID).token = [] ∧
      (NewRst msg.messageID).payload = [] := by
  refine ⟨?_, rfl, rfl, rfl, rfl, rfl⟩
  have hstep : receiveStep c (.ok msg) =
      (match FindInteraction c.interactions msg.token msg.messageID with
       | none => (c, [NewRst msg.messageID], [])
       | some ia => (c, [], [(ia, msg)])) := rfl
  rw [hstep, h]

/-- Witness for C7: a fresh connection with no interactions, receiving a
confirmable GET with message id 42. -/
theorem unmatched_inbound_triggers_rst_witness :
    receiveStep ⟨[], false⟩ (.ok ⟨.confirmable, 1, 42, [], [], []⟩) =
        (⟨[], false⟩, [NewRst 42], []) ∧
      (NewRst 42).type = .reset ∧ (NewRst 42).code = 0 ∧
      (NewRst 42).messageID = 42 ∧ (NewRst 42).token = [] ∧
      (NewRst 42).payload = [] := by
  have h := unmatched_inbound_triggers_rst ⟨[], false⟩
    ⟨.confirmable, 1, 42, [], [], []⟩ rfl
  exact h

end CoapGo
